import Mathlib

/-!
Verification development for the `miff` module (src/miff.py): a multivariate
feature space with per-feature metrics, optional range remaps, and a weighted
average of the per-feature distances.

Modelling conventions.
Python floats are modelled by exact numbers: by an arbitrary `LinearOrderedField`
(instantiated at `ℚ` for concrete computations) wherever the source uses only
field and order operations, and by `ℝ` where `np.sqrt` / `np.exp` occur.
Python dictionaries are modelled by their lookup function `String → Option V`
(`none` models an absent key, i.e. a `KeyError` on subscripting); assignment
`e[k] = v` is modelled by functional update, which has exactly the Python
`dict` lookup semantics (a later assignment to the same key overwrites the
earlier value).  Exceptional outcomes of `Difference` are made explicit in the
inductive result type `DiffResult`.
-/

namespace Miff

/-- Numpy-level exceptions raised by the metric functions that are modelled
fallibly.  `typeError` models a Python `TypeError` (wrong number of arguments
to a ufunc), `valueError` models the `ValueError` numpy raises when two
operand shapes cannot be broadcast together. -/
inductive NpError where
  | typeError
  | valueError
deriving DecidableEq

/-- `EuclideanDistance` (miff.py lines 38-40): `np.sqrt(np.sum((a-b)**2))` for
two equal-length numeric vectors. -/
noncomputable def EuclideanDistance (a b : List ℝ) : ℝ :=
  Real.sqrt (List.zipWith (fun x y => (x - y) ^ 2) a b).sum

/-- `ManhattanDistance` (miff.py lines 43-45): `np.sum(np.abs(a - b))` for two
equal-length numeric vectors. -/
def ManhattanDistance {K : Type} [LinearOrderedField K] (a b : List K) : K :=
  (List.zipWith (fun x y => |x - y|) a b).sum

/-- `MaxAbsDistance` (miff.py lines 48-50): `d = np.maximum(np.abs(a - b))`.
The subtraction `a - b` is evaluated first and raises a broadcasting
`ValueError` when the two lengths differ and neither operand is a singleton;
otherwise `np.maximum` — a *binary* elementwise-maximum ufunc — is called with
a single positional argument, which raises `TypeError` before any computation.
The function therefore never returns a number. -/
def MaxAbsDistance {K : Type} (a b : List K) : Except NpError K :=
  if a.length = b.length ∨ a.length = 1 ∨ b.length = 1 then
    Except.error NpError.typeError
  else
    Except.error NpError.valueError

/-- `CosineDistance` (miff.py lines 53-55):
`1.0 - np.dot(a, b) / np.linalg.norm(a) / np.linalg.norm(b)`. -/
noncomputable def CosineDistance (a b : List ℝ) : ℝ :=
  1 - (List.zipWith (fun x y => x * y) a b).sum
      / Real.sqrt (a.map (fun x => x ^ 2)).sum
      / Real.sqrt (b.map (fun x => x ^ 2)).sum

/-- `DiscreteDistance` (miff.py lines 58-62): `0.0` if `a == b` else `1.0`. -/
def DiscreteDistance {V K : Type} [DecidableEq V] [LinearOrderedField K] (a b : V) : K :=
  if a = b then 0 else 1

/-- Bhattacharyya coefficient exactly as accumulated by the loop in
`HellingerDistance` (miff.py lines 67-72): the inputs are first normalized to
`aa = a / np.sum(a)` and `bb = b / np.sum(b)`, then
`bc = Σ_i np.sqrt(aa[i] * bb[i])`.  The Python loop runs `i` over
`range(len(a))` and indexes both arrays; for equal-length inputs (an
`IndexError` otherwise aborts the call) this is exactly the `zipWith` below. -/
noncomputable def hellingerBC (a b : List ℝ) : ℝ :=
  (List.zipWith (fun x y => Real.sqrt (x * y))
    (a.map (fun x => x / a.sum)) (b.map (fun y => y / b.sum))).sum

/-- `HellingerDistance` (miff.py lines 67-74): `d = np.sqrt(1 - bc)` with no
clamping of the argument.  `Real.sqrt` yields `0` on a negative argument where
`np.sqrt` yields `NaN`; the theorem about this function shows that on the
claimed domain the argument `1 - bc` is nonnegative, where the two semantics
agree (and no `NaN` can arise in the source). -/
noncomputable def HellingerDistance (a b : List ℝ) : ℝ :=
  Real.sqrt (1 - hellingerBC a b)

/-- `LinearRemap` (miff.py lines 82-84): `np.minimum(d / r, 1.0)`. -/
def LinearRemap {K : Type} [LinearOrderedField K] (d r : K) : K :=
  min (d / r) 1

/-- `ExponentialRemap` (miff.py lines 87-89): `1.0 - np.exp(-d / r)`. -/
noncomputable def ExponentialRemap (d r : ℝ) : ℝ :=
  1 - Real.exp (-d / r)

/-- One feature registry entry (miff.py lines 116-118): the dictionary
`{'name': name, 'proto': proto, 'metric': metric, 'remap': remap,
'range': range, 'weight': weight}` appended by `AddFeature`.  `remap = none`
models Python `None` (the `if ff['remap']:` test is false exactly then, a
function object always being truthy). -/
structure Feature (K V : Type) where
  name : String
  proto : V
  metric : V → V → K
  remap : Option (K → K → K)
  range : K
  weight : K

/-- The feature space (miff.py lines 96-104): `__init__` installs a fresh
per-instance `self.features = []`; the registry is this list, in registration
order.  (The separate class-level attribute and its interaction with
instances is modelled by `PyClassState` below.) -/
structure FeatureSpace (K V : Type) where
  features : List (Feature K V)

/-- `FeatureSpace.AddFeature` (miff.py lines 112-120): appends one registry
entry to `self.features`.  Parameter names follow the source. -/
def FeatureSpace.AddFeature {K V : Type} (fs : FeatureSpace K V) (name : String)
    (proto : V) (metric : V → V → K) (remap : Option (K → K → K))
    (range : K) (weight : K) : FeatureSpace K V :=
  FeatureSpace.mk (fs.features ++ [Feature.mk name proto metric remap range weight])

/-- Remap step of the `Difference` loop (miff.py lines 139-140):
`if ff['remap']: mm = ff['remap'](mm, ff['range'])`. -/
def applyRemap {K V : Type} (ff : Feature K V) (mm : K) : K :=
  match ff.remap with
  | some r => r mm ff.range
  | none => mm

/-- Loop body of `Difference` (miff.py lines 134-142): walk the registry in
registration order, look up `aa[name]` and `bb[name]` (the first absent key
raises `KeyError(name)`, modelled by `Except.error name`), apply the metric
and the optional remap, and collect the per-feature metric values and the
weights in order. -/
def diffLoop {K V : Type} (feats : List (Feature K V)) (aa bb : String → Option V) :
    Except String (List K × List K) :=
  match feats with
  | [] => Except.ok ([], [])
  | ff :: rest =>
    match aa ff.name with
    | none => Except.error ff.name
    | some aaVal =>
      match bb ff.name with
      | none => Except.error ff.name
      | some bbVal =>
        match diffLoop rest aa bb with
        | Except.error n => Except.error n
        | Except.ok (ms, ws) =>
          Except.ok (applyRemap ff (ff.metric aaVal bbVal) :: ms, ff.weight :: ws)

/-- Possible outcomes of `Difference` (miff.py lines 128-152).
`ok dd ms` is a normal return: the scalar `dd`, together with `some` metrics
list exactly when `get_metrics` was requested.  `keyError n` models the
`KeyError` escaping from `aa[featureName]` / `bb[featureName]`.
`zeroDivisionError` models `sum([]) / sum([])`, i.e. Python integer `0 / 0`
(both `sum`s of empty arrays return the `int` start value `0`), raised when no
feature is registered.  `nonfiniteFloat num` models the numpy float division
`num / 0.0` performed when features exist but the weights sum to `0`: its
value is `NaN` when `num = 0` and `±Inf` otherwise — a non-finite float with
no counterpart in an ordered field, so the numerator is recorded instead. -/
inductive DiffResult (K : Type) where
  | ok (dd : K) (ms : Option (List K))
  | keyError (name : String)
  | zeroDivisionError
  | nonfiniteFloat (num : K)
deriving DecidableEq

/-- `FeatureSpace.Difference` (miff.py lines 128-152): run the loop, then
`dd = sum(mm * ww) / sum(ww)`; return `dd` (and the metrics list when
`get_metrics`).  The empty registry gives Python integer `0 / 0`
(`ZeroDivisionError`); a nonempty registry whose weights sum to zero gives a
float division by `0.0` (a silent non-finite result, with a warning only). -/
def FeatureSpace.Difference {K V : Type} [LinearOrderedField K] (fs : FeatureSpace K V)
    (aa bb : String → Option V) (get_metrics : Bool) : DiffResult K :=
  match diffLoop fs.features aa bb with
  | Except.error n => DiffResult.keyError n
  | Except.ok (metrics, weights) =>
    match weights with
    | [] => DiffResult.zeroDivisionError
    | _ :: _ =>
      if weights.sum = 0 then
        DiffResult.nonfiniteFloat (List.zipWith (fun m w => m * w) metrics weights).sum
      else
        DiffResult.ok ((List.zipWith (fun m w => m * w) metrics weights).sum / weights.sum)
          (if get_metrics then some metrics else none)

/-- `FeatureSpace.Element` (miff.py lines 159-164): start from the empty dict
`e = {}` and execute `e[ff['name']] = ff['proto']` for every registry entry in
order.  The dict is modelled by its lookup function, the assignment by
functional update, so a later entry with the same name overwrites (shadows)
an earlier one, exactly as in a Python dict.  No copy of the prototype is
taken: the stored value is `ff['proto']` itself. -/
def FeatureSpace.Element {K V : Type} (fs : FeatureSpace K V) : String → Option V :=
  fs.features.foldl (fun e ff => fun n => if n = ff.name then some ff.proto else e n)
    (fun _ => none)

/-- Per-feature normalized metric `m_i` of the difference computation: the
feature's metric applied to `aa[name]` and `bb[name]`, passed through the
remap with the feature's range when one is configured.  (The `getD ff.proto`
defaults are irrelevant wherever this definition is used: every use carries
the hypothesis that both lookups succeed.) -/
def normMetric {K V : Type} (ff : Feature K V) (aa bb : String → Option V) : K :=
  applyRemap ff (ff.metric ((aa ff.name).getD ff.proto) ((bb ff.name).getD ff.proto))

/-! Heap model for the prototype-sharing behaviour of `Element`.  Python
stores object *references* in dicts; `e[ff['name']] = ff['proto']` stores the
reference held in the registry, allocating nothing.  To observe this, values
are instantiated at `V := Nat` — an address into a heap of mutable vector
objects — and `Element` is threaded through the heap. -/

/-- A heap of mutable numeric-vector objects, indexed by address. -/
def Heap : Type := Nat → List ℚ

/-- In-place mutation of the object at address `a` (e.g. `v[0] = x` or any
other destructive update of a list/array object). -/
def updateHeap (h : Heap) (a : Nat) (v : List ℚ) : Heap :=
  fun x => if x = a then v else h x

/-- Heap-threaded `Element` (miff.py lines 159-164) at `V := Nat` (values are
object addresses): the method reads `ff['proto']` and stores that address in
the fresh dict; it allocates no new object and writes to no existing one, so
the heap passes through unchanged. -/
def FeatureSpace.ElementH (fs : FeatureSpace ℚ Nat) (h : Heap) :
    (String → Option Nat) × Heap :=
  (fs.Element, h)

/-! State model for the class-level `features` attribute (miff.py lines
96-120).  `FeatureSpace` has a class attribute `features = []` (line 100) and
`__init__` assigns a fresh `self.features = []` into the instance dict (line
104).  Python attribute lookup reads the instance dict first and falls back
to the class attribute; `self.features.append(f)` mutates in place whichever
list that lookup found. -/

/-- Global state of the `FeatureSpace` class: the class-level `features` list
and, per instance id, the optional instance-dict entry for `features`
(`none` = the instance has no own `features` attribute). -/
structure PyClassState (α : Type) where
  classFeatures : List α
  instFeatures : Nat → Option (List α)

/-- Python attribute lookup `self.features` for instance `i`: the instance
attribute if present, otherwise the class attribute. -/
def PyClassState.getFeatures {α : Type} (s : PyClassState α) (i : Nat) : List α :=
  (s.instFeatures i).getD s.classFeatures

/-- `__init__` (miff.py lines 103-104) run on instance `i`: binds a fresh
empty list as the instance's own `features` attribute. -/
def featureSpaceInit {α : Type} (s : PyClassState α) (i : Nat) : PyClassState α :=
  PyClassState.mk s.classFeatures (fun j => if j = i then some [] else s.instFeatures j)

/-- `AddFeature` (miff.py line 120) run on instance `i`:
`self.features.append(f)` appends, in place, to the list found by attribute
lookup — the instance's own list when `__init__` created one, else the shared
class-level list. -/
def addFeatureState {α : Type} (s : PyClassState α) (i : Nat) (f : α) : PyClassState α :=
  match s.instFeatures i with
  | some l => PyClassState.mk s.classFeatures
      (fun j => if j = i then some (l ++ [f]) else s.instFeatures j)
  | none => PyClassState.mk (s.classFeatures ++ [f]) s.instFeatures

/-- A sequence of `AddFeature` calls on instance `i`, in order. -/
def addFeatures {α : Type} (s : PyClassState α) (i : Nat) (l : List α) : PyClassState α :=
  l.foldl (fun s f => addFeatureState s i f) s

/-! Concrete instances used by the witness and counterexample theorems. -/

/-- One-feature space: "age" with the caller-supplied metric `b - a`, no
remap, weight 1 (the spec's scenario 1 shape). -/
def fsAge : FeatureSpace ℚ ℚ :=
  (FeatureSpace.mk []).AddFeature "age" 0 (fun a b => b - a) none 1 1

/-- Element `{age: 30}`. -/
def aaAge : String → Option ℚ := fun n => if n = "age" then some 30 else none

/-- Element `{age: 80}`. -/
def bbAge : String → Option ℚ := fun n => if n = "age" then some 80 else none

/-- The everywhere-empty element `{}`. -/
def emptyElem : String → Option ℚ := fun _ => none

/-- One registered feature of weight `0`: the weight total is `0` while the
registry is nonempty. -/
def fsZeroW : FeatureSpace ℚ ℚ :=
  (FeatureSpace.mk []).AddFeature "a" 0 (fun a b => b - a) none 1 0

/-- Element `{a: 1}`. -/
def aaZ : String → Option ℚ := fun n => if n = "a" then some 1 else none

/-- Element `{a: 2}`. -/
def bbZ : String → Option ℚ := fun n => if n = "a" then some 2 else none

/-- Two registered features, both of weight `0`. -/
def fsZeroW2 : FeatureSpace ℚ ℚ :=
  ((FeatureSpace.mk []).AddFeature "x" 0 (fun a b => b - a) none 1 0).AddFeature
    "y" 0 (fun _ _ => 2) none 1 0

/-- Element `{x: 1, y: 5}`. -/
def aaZ2 : String → Option ℚ :=
  fun n => if n = "x" then some 1 else if n = "y" then some 5 else none

/-- Element `{x: 4, y: 9}`. -/
def bbZ2 : String → Option ℚ :=
  fun n => if n = "x" then some 4 else if n = "y" then some 9 else none

/-- Feature "a", metric `b - a`, weight 1. -/
def fa : Feature ℚ ℚ := Feature.mk "a" 0 (fun a b => b - a) none 1 1

/-- Feature "b", metric `b - a`, weight 2. -/
def fb : Feature ℚ ℚ := Feature.mk "b" 0 (fun a b => b - a) none 1 2

/-- Space registering `fa` then `fb`. -/
def fsAB : FeatureSpace ℚ ℚ := FeatureSpace.mk [fa, fb]

/-- Space registering the same two features in the opposite order. -/
def fsBA : FeatureSpace ℚ ℚ := FeatureSpace.mk [fb, fa]

/-- Element `{a: 1, b: 2}`. -/
def aaP : String → Option ℚ :=
  fun n => if n = "a" then some 1 else if n = "b" then some 2 else none

/-- Element `{a: 3, b: 5}`. -/
def bbP : String → Option ℚ :=
  fun n => if n = "a" then some 3 else if n = "b" then some 5 else none

/-- First registration of name "x": prototype 1. -/
def fdup1 : Feature ℚ ℚ := Feature.mk "x" 1 (fun a b => b - a) none 1 1

/-- Second (shadowing) registration of name "x": prototype 9. -/
def fdup2 : Feature ℚ ℚ := Feature.mk "x" 9 (fun _ _ => 7) none 1 1

/-- Space with two registry entries sharing the name "x". -/
def fsDup : FeatureSpace ℚ ℚ := FeatureSpace.mk [fdup1, fdup2]

/-- Element `{x: 2}`. -/
def aaD : String → Option ℚ := fun n => if n = "x" then some 2 else none

/-- Element `{x: 5}`. -/
def bbD : String → Option ℚ := fun n => if n = "x" then some 5 else none

/-- Heap-model space: one feature "v" whose prototype is the object at
address 0 (a mutable vector). -/
def fsVec : FeatureSpace ℚ Nat :=
  (FeatureSpace.mk []).AddFeature "v" 0 (fun _ _ => 0) none 1 1

/-- Initial heap: the object at address 0 is the vector `[1, 2]`. -/
def heap0 : Heap := fun a => if a = 0 then [1, 2] else []

/-- Initial class state: class attribute `features = []`, no instances yet. -/
def stInit : PyClassState (Feature ℚ ℚ) := PyClassState.mk [] (fun _ => none)

/-! Helper lemmas. -/

theorem zipWith_map_same {α β : Type} (f : β → β → β) (g h : α → β) (l : List α) :
    List.zipWith f (l.map g) (l.map h) = l.map (fun x => f (g x) (h x)) := by
  induction l with
  | nil => rfl
  | cons x t ih => simp [ih]

theorem diffLoop_ok {K V : Type} (feats : List (Feature K V)) (aa bb : String → Option V)
    (ha : ∀ ff ∈ feats, (aa ff.name).isSome = true)
    (hb : ∀ ff ∈ feats, (bb ff.name).isSome = true) :
    diffLoop feats aa bb =
      Except.ok (feats.map (fun ff => normMetric ff aa bb), feats.map (fun ff => ff.weight)) := by
  induction feats with
  | nil => rfl
  | cons ff t ih =>
    obtain ⟨a, haeq⟩ := Option.isSome_iff_exists.mp (ha ff (List.mem_cons_self ff t))
    obtain ⟨b, hbeq⟩ := Option.isSome_iff_exists.mp (hb ff (List.mem_cons_self ff t))
    have ih' := ih (fun g hg => ha g (List.mem_cons_of_mem _ hg))
      (fun g hg => hb g (List.mem_cons_of_mem _ hg))
    simp [diffLoop, haeq, hbeq, ih', normMetric]

theorem diffLoop_error_iff {K V : Type} (feats : List (Feature K V))
    (aa bb : String → Option V) :
    (∃ n, diffLoop (K := K) feats aa bb = Except.error n) ↔
      ∃ ff ∈ feats, aa ff.name = none ∨ bb ff.name = none := by
  induction feats with
  | nil => simp [diffLoop]
  | cons ff t ih =>
    simp only [diffLoop]
    cases haeq : aa ff.name with
    | none => simp [haeq]
    | some a =>
      cases hbeq : bb ff.name with
      | none => simp [hbeq]
      | some b =>
        cases hrec : diffLoop (K := K) t aa bb with
        | error n =>
          constructor
          · intro _
            obtain ⟨g, hg, hmiss⟩ := ih.mp ⟨n, hrec⟩
            exact ⟨g, List.mem_cons_of_mem _ hg, hmiss⟩
          · intro _
            exact ⟨n, rfl⟩
        | ok p =>
          simp only [hrec]
          constructor
          · rintro ⟨n, hn⟩; cases hn
          · rintro ⟨g, hg, hmiss⟩
            rcases List.mem_cons.mp hg with rfl | hgt
            · rcases hmiss with hm | hm
              · rw [hm] at haeq; cases haeq
              · rw [hm] at hbeq; cases hbeq
            · obtain ⟨n, hn⟩ := ih.mpr ⟨g, hgt, hmiss⟩
              rw [hn] at hrec; cases hrec

theorem Difference_cases {K V : Type} [LinearOrderedField K] (fs : FeatureSpace K V)
    (aa bb : String → Option V) (g : Bool)
    (ha : ∀ ff ∈ fs.features, (aa ff.name).isSome = true)
    (hb : ∀ ff ∈ fs.features, (bb ff.name).isSome = true) :
    fs.Difference aa bb g =
      if fs.features.isEmpty then DiffResult.zeroDivisionError
      else if (fs.features.map (fun ff => ff.weight)).sum = 0 then
        DiffResult.nonfiniteFloat (fs.features.map (fun ff => normMetric ff aa bb * ff.weight)).sum
      else
        DiffResult.ok ((fs.features.map (fun ff => normMetric ff aa bb * ff.weight)).sum
            / (fs.features.map (fun ff => ff.weight)).sum)
          (if g then some (fs.features.map (fun ff => normMetric ff aa bb)) else none) := by
  obtain ⟨l⟩ := fs
  cases l with
  | nil => simp [FeatureSpace.Difference, diffLoop]
  | cons f t =>
    have hrw := diffLoop_ok (f :: t) aa bb ha hb
    simp only [FeatureSpace.Difference, hrw, zipWith_map_same]
    simp [List.isEmpty_cons]

theorem Difference_ok {K V : Type} [LinearOrderedField K] (fs : FeatureSpace K V)
    (aa bb : String → Option V) (g : Bool)
    (ha : ∀ ff ∈ fs.features, (aa ff.name).isSome = true)
    (hb : ∀ ff ∈ fs.features, (bb ff.name).isSome = true)
    (hw : (fs.features.map (fun ff => ff.weight)).sum ≠ 0) :
    fs.Difference aa bb g =
      DiffResult.ok ((fs.features.map (fun ff => normMetric ff aa bb * ff.weight)).sum
          / (fs.features.map (fun ff => ff.weight)).sum)
        (if g then some (fs.features.map (fun ff => normMetric ff aa bb)) else none) := by
  have hne : fs.features ≠ [] := by
    intro h
    exact hw (by simp [h])
  have hE : fs.features.isEmpty = false := by simp [List.isEmpty_eq_false, hne]
  rw [Difference_cases fs aa bb g ha hb, hE]
  simp [hw]

theorem element_foldl_none {K V : Type} (feats : List (Feature K V)) (e : String → Option V)
    (n : String) (h : feats.reverse.find? (fun ff => ff.name == n) = none) :
    (feats.foldl (fun e ff => fun m => if m = ff.name then some ff.proto else e m) e) n
      = e n := by
  induction feats generalizing e with
  | nil => rfl
  | cons ff t ih =>
    rw [List.reverse_cons, List.find?_append] at h
    have h1 : t.reverse.find? (fun ff => ff.name == n) = none := by
      cases hh : t.reverse.find? (fun ff => ff.name == n) <;> simp_all [Option.or]
    have h2 : List.find? (fun ff => ff.name == n) [ff] = none := by
      cases hh : List.find? (fun ff => ff.name == n) [ff] <;> simp_all [Option.or]
    have hne : n ≠ ff.name := by
      intro hn
      cases hp : (ff.name == n) with
      | true => simp [List.find?, hp] at h2
      | false => exact absurd hn.symm (by simpa using hp)
    rw [List.foldl_cons, ih _ h1]
    simp [hne]

theorem element_foldl_some {K V : Type} (feats : List (Feature K V)) (e : String → Option V)
    (n : String) (g : Feature K V)
    (h : feats.reverse.find? (fun ff => ff.name == n) = some g) :
    (feats.foldl (fun e ff => fun m => if m = ff.name then some ff.proto else e m) e) n
      = some g.proto := by
  induction feats generalizing e with
  | nil => simp [List.find?] at h
  | cons ff t ih =>
    rw [List.reverse_cons, List.find?_append] at h
    cases hh : t.reverse.find? (fun ff => ff.name == n) with
    | some g' =>
      rw [hh] at h
      have : g' = g := by simpa [Option.or] using h
      subst this
      rw [List.foldl_cons]
      exact ih _ hh
    | none =>
      rw [hh] at h
      simp only [Option.or] at h
      have hgff : ff = g ∧ (ff.name == n) = true := by
        cases hp : (ff.name == n) with
        | true => simp [List.find?, hp] at h; exact ⟨h, rfl⟩
        | false => simp [List.find?, hp] at h
      have hn : n = ff.name := (eq_of_beq hgff.2).symm
      rw [List.foldl_cons, element_foldl_none t _ n hh]
      rw [if_pos hn, hgff.1]

theorem Element_lookup {K V : Type} (fs : FeatureSpace K V) (n : String) :
    fs.Element n
      = (fs.features.reverse.find? (fun ff => ff.name == n)).map (fun ff => ff.proto) := by
  unfold FeatureSpace.Element
  cases h : fs.features.reverse.find? (fun ff => ff.name == n) with
  | none => rw [element_foldl_none _ _ _ h]; rfl
  | some g => rw [element_foldl_some _ _ _ _ h]; rfl

theorem sum_map_div (l : List ℝ) (s : ℝ) : (l.map (fun x => x / s)).sum = l.sum / s := by
  induction l with
  | nil => simp
  | cons x t ih => simp [ih, add_div]

theorem zipWith_sum_le_of_le (l₁ l₂ : List ℝ) (f g : ℝ → ℝ → ℝ)
    (h : ∀ x ∈ l₁, ∀ y ∈ l₂, f x y ≤ g x y) :
    (List.zipWith f l₁ l₂).sum ≤ (List.zipWith g l₁ l₂).sum := by
  induction l₁ generalizing l₂ with
  | nil => simp
  | cons x t ih =>
    cases l₂ with
    | nil => simp
    | cons y u =>
      simp only [List.zipWith_cons_cons, List.sum_cons]
      have h1 := h x (List.mem_cons_self _ _) y (List.mem_cons_self _ _)
      have h2 := ih u
        (fun p hp q hq => h p (List.mem_cons_of_mem _ hp) q (List.mem_cons_of_mem _ hq))
      exact add_le_add h1 h2

theorem zipWith_avg_sum (l₁ l₂ : List ℝ) (h : l₁.length = l₂.length) :
    (List.zipWith (fun x y => (x + y) / 2) l₁ l₂).sum = (l₁.sum + l₂.sum) / 2 := by
  induction l₁ generalizing l₂ with
  | nil =>
    cases l₂ with
    | nil => simp
    | cons y u => cases h
  | cons x t ih =>
    cases l₂ with
    | nil => cases h
    | cons y u =>
      simp only [List.zipWith_cons_cons, List.sum_cons, ih u (by simpa using h)]
      ring

theorem sqrt_mul_le_avg (x y : ℝ) (hx : 0 ≤ x) (hy : 0 ≤ y) :
    Real.sqrt (x * y) ≤ (x + y) / 2 := by
  have h1 : x * y ≤ ((x + y) / 2) ^ 2 := by nlinarith [sq_nonneg (x - y)]
  calc Real.sqrt (x * y) ≤ Real.sqrt (((x + y) / 2) ^ 2) := Real.sqrt_le_sqrt h1
    _ = (x + y) / 2 := Real.sqrt_sq (by positivity)

theorem hellingerBC_le_one (a b : List ℝ) (hlen : a.length = b.length)
    (ha : ∀ x ∈ a, 0 ≤ x) (hb : ∀ x ∈ b, 0 ≤ x)
    (hsa : 0 < a.sum) (hsb : 0 < b.sum) :
    hellingerBC a b ≤ 1 := by
  have haa : ∀ x ∈ a.map (fun x => x / a.sum), 0 ≤ x := by
    intro x hx
    obtain ⟨x₀, hx₀, rfl⟩ := List.mem_map.mp hx
    exact div_nonneg (ha x₀ hx₀) hsa.le
  have hbb : ∀ y ∈ b.map (fun y => y / b.sum), 0 ≤ y := by
    intro y hy
    obtain ⟨y₀, hy₀, rfl⟩ := List.mem_map.mp hy
    exact div_nonneg (hb y₀ hy₀) hsb.le
  have hle := zipWith_sum_le_of_le (a.map (fun x => x / a.sum)) (b.map (fun y => y / b.sum))
    (fun x y => Real.sqrt (x * y)) (fun x y => (x + y) / 2)
    (fun x hx y hy => sqrt_mul_le_avg x y (haa x hx) (hbb y hy))
  have hlen2 : (a.map (fun x => x / a.sum)).length = (b.map (fun y => y / b.sum)).length := by
    simp [hlen]
  have havg := zipWith_avg_sum (a.map (fun x => x / a.sum)) (b.map (fun y => y / b.sum)) hlen2
  have hsma : (a.map (fun x => x / a.sum)).sum = 1 := by
    rw [sum_map_div]; exact div_self hsa.ne'
  have hsmb : (b.map (fun y => y / b.sum)).sum = 1 := by
    rw [sum_map_div]; exact div_self hsb.ne'
  unfold hellingerBC
  calc (List.zipWith (fun x y => Real.sqrt (x * y))
        (a.map (fun x => x / a.sum)) (b.map (fun y => y / b.sum))).sum
      ≤ (List.zipWith (fun x y => (x + y) / 2)
        (a.map (fun x => x / a.sum)) (b.map (fun y => y / b.sum))).sum := hle
    _ = (1 + 1) / 2 := by rw [havg, hsma, hsmb]
    _ = 1 := by norm_num

theorem Difference_keyError_iff_diffLoop {K V : Type} [LinearOrderedField K]
    (fs : FeatureSpace K V) (aa bb : String → Option V) (g : Bool) (n : String) :
    fs.Difference aa bb g = DiffResult.keyError n
      ↔ diffLoop fs.features aa bb = Except.error n := by
  unfold FeatureSpace.Difference
  cases hd : diffLoop fs.features aa bb with
  | error m => simp
  | ok p =>
    obtain ⟨ms, ws⟩ := p
    cases ws with
    | nil => simp
    | cons w ws' => by_cases hs : w + ws'.sum = 0 <;> simp [List.sum_cons, hs]

/-! Claim theorems. -/

/-- C1: for every feature space with registered features of weights w1..wn and
every pair of elements containing all registered feature names, `Difference`
returns exactly (Σ wi*mi)/(Σ wi), where mi is the i-th feature's metric value
on the two elements, passed through that feature's remap with its range when a
remap is configured and used unmodified otherwise; with `get_metrics` it
additionally returns the list [m1..mn] in registration order. -/
theorem difference_weighted_average {K V : Type} [LinearOrderedField K]
    (fs : FeatureSpace K V) (aa bb : String → Option V)
    (ha : ∀ ff ∈ fs.features, (aa ff.name).isSome = true)
    (hb : ∀ ff ∈ fs.features, (bb ff.name).isSome = true)
    (hne : fs.features ≠ [])
    (hw : (fs.features.map (fun ff => ff.weight)).sum ≠ 0) :
    fs.Difference aa bb false =
      DiffResult.ok ((fs.features.map (fun ff => ff.weight * normMetric ff aa bb)).sum
          / (fs.features.map (fun ff => ff.weight)).sum) none ∧
    fs.Difference aa bb true =
      DiffResult.ok ((fs.features.map (fun ff => ff.weight * normMetric ff aa bb)).sum
          / (fs.features.map (fun ff => ff.weight)).sum)
        (some (fs.features.map (fun ff => normMetric ff aa bb))) := by
  have hcomm : fs.features.map (fun ff => normMetric ff aa bb * ff.weight)
      = fs.features.map (fun ff => ff.weight * normMetric ff aa bb) := by
    induction fs.features with
    | nil => rfl
    | cons f t ih => simp [ih, mul_comm]
  have h1 := Difference_ok fs aa bb false ha hb hw
  have h2 := Difference_ok fs aa bb true ha hb hw
  rw [hcomm] at h1 h2
  exact ⟨h1, h2⟩

/-- Witness for C1: the space `fsAge` (one feature "age", metric `b - a`, no
remap, weight 1) on elements `{age: 30}` and `{age: 80}` yields exactly
(1*50)/1 = 50, and with `get_metrics` also the list [50]. -/
theorem difference_weighted_average_witness :
    fsAge.features ≠ [] ∧
    fsAge.Difference aaAge bbAge false = DiffResult.ok 50 none ∧
    fsAge.Difference aaAge bbAge true = DiffResult.ok 50 (some [50]) := by
  have h := difference_weighted_average fsAge aaAge bbAge (by decide) (by decide)
    (List.cons_ne_nil _ _) (by norm_num [fsAge, FeatureSpace.AddFeature])
  refine ⟨List.cons_ne_nil _ _, ?_, ?_⟩
  · rw [h.1]
    norm_num [fsAge, FeatureSpace.AddFeature, normMetric, applyRemap, aaAge, bbAge]
  · rw [h.2]
    norm_num [fsAge, FeatureSpace.AddFeature, normMetric, applyRemap, aaAge, bbAge]

/-- C2 (the code defect): `MaxAbsDistance` never returns the L∞ distance — on
every pair of equal-length vectors it raises `TypeError`, because `np.maximum`
(a binary ufunc) is called with a single argument. -/
theorem maxAbsDistance_always_typeError {K : Type} (a b : List K)
    (h : a.length = b.length) :
    MaxAbsDistance a b = Except.error NpError.typeError := by
  simp [MaxAbsDistance, h]

/-- Witness for C2: the concrete call `MaxAbsDistance([30, 2], [80, 5])`
raises `TypeError` instead of returning `max(|30-80|, |2-5|) = 50`. -/
theorem maxAbsDistance_always_typeError_witness :
    ([(30 : ℚ), 2].length = [(80 : ℚ), 5].length) ∧
    MaxAbsDistance [(30 : ℚ), 2] [(80 : ℚ), 5] = Except.error NpError.typeError :=
  ⟨rfl, maxAbsDistance_always_typeError _ _ rfl⟩

/-- C3 counterexample: on the space `fsZeroW` (one registered feature of
weight 0) and elements `{a: 1}`, `{a: 2}`, `Difference` does not fail with any
typed error: it performs the float division `0.0 / 0.0` and returns the
silent non-finite value NaN (`nonfiniteFloat 0`), contradicting the claim
that a zero weight total produces a ConfigurationError/DomainError. -/
theorem difference_zero_weight_nan_counterexample :
    fsZeroW.Difference aaZ bbZ false = DiffResult.nonfiniteFloat 0 := by
  norm_num [fsZeroW, FeatureSpace.AddFeature, FeatureSpace.Difference, diffLoop,
    applyRemap, aaZ, bbZ]

/-- C3 as amended: when the registered weights sum to 0, `Difference` does not
return an ordinary number, but neither does it raise a typed
ConfigurationError/DomainError: with an empty registry it raises Python's
untyped `ZeroDivisionError` (integer `0 / 0`), and with a nonempty registry it
returns the non-finite float `(Σ mi*wi) / 0.0` (NaN when the weighted sum is
also 0) without raising at all. -/
theorem difference_zero_weight_total {K V : Type} [LinearOrderedField K]
    (fs : FeatureSpace K V) (aa bb : String → Option V) (g : Bool)
    (ha : ∀ ff ∈ fs.features, (aa ff.name).isSome = true)
    (hb : ∀ ff ∈ fs.features, (bb ff.name).isSome = true)
    (hw : (fs.features.map (fun ff => ff.weight)).sum = 0) :
    (fs.features = [] → fs.Difference aa bb g = DiffResult.zeroDivisionError) ∧
    (fs.features ≠ [] → fs.Difference aa bb g =
      DiffResult.nonfiniteFloat
        (fs.features.map (fun ff => normMetric ff aa bb * ff.weight)).sum) := by
  constructor
  · intro h
    rw [Difference_cases fs aa bb g ha hb]
    simp [h]
  · intro hne
    have hE : fs.features.isEmpty = false := by simp [List.isEmpty_eq_false, hne]
    rw [Difference_cases fs aa bb g ha hb, hE]
    simp [hw]

/-- Witness for C3's amended statement: on the two-feature space `fsZeroW2`
(both weights 0), the weight total is 0 and `Difference` returns the
non-finite float marker with numerator (3*0 + 2*0) = 0, i.e. NaN. -/
theorem difference_zero_weight_total_witness :
    (fsZeroW2.features.map (fun ff => ff.weight)).sum = 0 ∧
    fsZeroW2.Difference aaZ2 bbZ2 true = DiffResult.nonfiniteFloat 0 := by
  constructor
  · norm_num [fsZeroW2, FeatureSpace.AddFeature]
  · have h := (difference_zero_weight_total fsZeroW2 aaZ2 bbZ2 true (by decide) (by decide)
      (by norm_num [fsZeroW2, FeatureSpace.AddFeature])).2 (List.cons_ne_nil _ _)
    rw [h]
    norm_num [fsZeroW2, FeatureSpace.AddFeature, normMetric, applyRemap, aaZ2, bbZ2]

/-- C4: for a feature space with at least one registered feature, `Difference`
fails with a `KeyError` (Python's LookupError subclass) exactly when one of
the two elements lacks a value for some registered feature name; when both
elements contain every registered name, no such error is raised. -/
theorem difference_keyError_iff_missing {K V : Type} [LinearOrderedField K]
    (fs : FeatureSpace K V) (aa bb : String → Option V) (g : Bool)
    (hne : fs.features ≠ []) :
    (∃ n, fs.Difference aa bb g = DiffResult.keyError n)
      ↔ ∃ ff ∈ fs.features, aa ff.name = none ∨ bb ff.name = none := by
  rw [← diffLoop_error_iff fs.features aa bb]
  exact exists_congr (fun n => Difference_keyError_iff_diffLoop fs aa bb g n)

/-- Witness for C4: on `fsAge`, the empty element `{}` is missing the
registered key "age", so `Difference` yields a KeyError; with both elements
complete no KeyError arises. -/
theorem difference_keyError_iff_missing_witness :
    fsAge.features ≠ [] ∧
    (∃ n, fsAge.Difference emptyElem bbAge true = DiffResult.keyError n) ∧
    ¬ ∃ n, fsAge.Difference aaAge bbAge true = DiffResult.keyError n := by
  refine ⟨List.cons_ne_nil _ _, ?_, ?_⟩
  · exact (difference_keyError_iff_missing fsAge emptyElem bbAge true
      (List.cons_ne_nil _ _)).mpr (by decide)
  · intro hex
    have := (difference_keyError_iff_missing fsAge aaAge bbAge true
      (List.cons_ne_nil _ _)).mp hex
    revert this
    decide

/-- C5: for every pair of equal-length nonnegative vectors with strictly
positive sums, `HellingerDistance a b` equals sqrt(max(0, 1 - BC)) where BC is
the Bhattacharyya coefficient of the normalized inputs, and the square root's
argument 1 - BC is nonnegative (BC ≤ 1 holds exactly, by AM-GM), so the
clamping is a no-op and `np.sqrt` receives no negative argument — no NaN is
produced on this domain. -/
theorem hellinger_clamp_equivalent_no_nan (a b : List ℝ) (hlen : a.length = b.length)
    (ha : ∀ x ∈ a, 0 ≤ x) (hb : ∀ x ∈ b, 0 ≤ x)
    (hsa : 0 < a.sum) (hsb : 0 < b.sum) :
    HellingerDistance a b = Real.sqrt (max 0 (1 - hellingerBC a b)) ∧
    0 ≤ 1 - hellingerBC a b := by
  have hbc := hellingerBC_le_one a b hlen ha hb hsa hsb
  have h0 : 0 ≤ 1 - hellingerBC a b := by linarith
  refine ⟨?_, h0⟩
  unfold HellingerDistance
  rw [max_eq_right h0]

/-- Witness for C5 on `a = [1], b = [2]`. -/
theorem hellinger_clamp_equivalent_no_nan_witness :
    (0 < ([1] : List ℝ).sum ∧ 0 < ([2] : List ℝ).sum) ∧
    (HellingerDistance [1] [2] = Real.sqrt (max 0 (1 - hellingerBC [1] [2])) ∧
      0 ≤ 1 - hellingerBC [1] [2]) := by
  refine ⟨⟨by norm_num, by norm_num⟩, ?_⟩
  exact hellinger_clamp_equivalent_no_nan [1] [2] rfl
    (by intro x hx; simp at hx; norm_num [hx])
    (by intro x hx; simp at hx; norm_num [hx])
    (by norm_num) (by norm_num)

/-- C6: for all d ≥ 0 and r > 0, `LinearRemap d r` lies in [0, 1] and
saturates at 1 for d ≥ r; `ExponentialRemap d r` lies in [0, 1); and both are
monotonically non-decreasing in d (stated for any d' with d ≤ d'). -/
theorem remaps_bounded_and_monotone (d d' r : ℝ) (hd : 0 ≤ d) (hdd : d ≤ d')
    (hr : 0 < r) :
    0 ≤ LinearRemap d r ∧ LinearRemap d r ≤ 1 ∧ (r ≤ d → LinearRemap d r = 1) ∧
    LinearRemap d r ≤ LinearRemap d' r ∧
    0 ≤ ExponentialRemap d r ∧ ExponentialRemap d r < 1 ∧
    ExponentialRemap d r ≤ ExponentialRemap d' r := by
  unfold LinearRemap ExponentialRemap
  refine ⟨le_min (div_nonneg hd hr.le) zero_le_one, min_le_right _ _, ?_, ?_, ?_, ?_, ?_⟩
  · intro hrd
    exact min_eq_right ((one_le_div hr).mpr hrd)
  · exact min_le_min ((div_le_div_iff_of_pos_right hr).mpr hdd) le_rfl
  · have h1 : -d / r ≤ 0 := by
      rw [neg_div]
      exact neg_nonpos.mpr (div_nonneg hd hr.le)
    have h2 := Real.exp_le_one_iff.mpr h1
    linarith
  · have h2 := Real.exp_pos (-d / r)
    linarith
  · have hmono : -d' / r ≤ -d / r := by
      rw [neg_div, neg_div]
      exact neg_le_neg ((div_le_div_iff_of_pos_right hr).mpr hdd)
    have h2 := Real.exp_le_exp.mpr hmono
    linarith

/-- Witness for C6 at d = 1, d' = 2, r = 1. -/
theorem remaps_bounded_and_monotone_witness :
    ((0 : ℝ) ≤ 1 ∧ (1 : ℝ) ≤ 2 ∧ (0 : ℝ) < 1) ∧
    (0 ≤ LinearRemap (1 : ℝ) 1 ∧ LinearRemap (1 : ℝ) 1 ≤ 1 ∧
      ((1 : ℝ) ≤ 1 → LinearRemap (1 : ℝ) 1 = 1) ∧
      LinearRemap (1 : ℝ) 1 ≤ LinearRemap 2 1 ∧
      0 ≤ ExponentialRemap (1 : ℝ) 1 ∧ ExponentialRemap (1 : ℝ) 1 < 1 ∧
      ExponentialRemap (1 : ℝ) 1 ≤ ExponentialRemap 2 1) :=
  ⟨by norm_num, remaps_bounded_and_monotone 1 2 1 (by norm_num) (by norm_num) (by norm_num)⟩

/-- C7 counterexample: the claim "a defensive copy is made for any
mutable/vector prototype, so mutating one returned element's values never
affects another returned element" is false.  In the heap model, the space
`fsVec` has one feature "v" whose prototype is the object at address 0 (the
vector [1, 2] in `heap0`).  Both calls `e1 = Element()` and `e2 = Element()`
return `{v: <address 0>}` — the registry's prototype reference itself, not a
copy (first conjunct).  Before mutation, `e2["v"]` dereferences to [1, 2]
(second conjunct); after the in-place mutation of the object reached through
`e1["v"]` (setting it to [9, 9]), dereferencing `e2["v"]` yields [9, 9]
(third conjunct): mutating one returned element's value changed the other. -/
theorem element_shared_prototype_counterexample :
    fsVec.Element "v" = some 0 ∧
    heap0 ((fsVec.Element "v").getD 99) = [1, 2] ∧
    updateHeap heap0 ((fsVec.Element "v").getD 99) [9, 9]
      ((fsVec.Element "v").getD 99) = [9, 9] := by
  refine ⟨by decide, ?_, ?_⟩ <;> norm_num [fsVec, FeatureSpace.AddFeature,
    FeatureSpace.Element, heap0, updateHeap]

/-- C7 as amended: `Element()` returns a mapping in which every registered
feature name maps to that feature's prototype — the prototype of the *last*
registration for a duplicated name — but no defensive copy is made: the
method allocates nothing (the heap passes through `ElementH` unchanged) and
stores the registry's own prototype reference, so all returned elements of a
space share their prototype objects with each other and with the registry,
and in-place mutation of a mutable prototype value through one returned
element is visible through every other. -/
theorem element_no_defensive_copy (fs : FeatureSpace ℚ Nat) (h : Heap) (n : String) :
    (fs.ElementH h).2 = h ∧
    (fs.ElementH h).1 n
      = (fs.features.reverse.find? (fun ff => ff.name == n)).map (fun ff => ff.proto) :=
  ⟨rfl, Element_lookup fs n⟩

/-- C8: permuting the registration order of distinctly-named features does not
change the scalar returned by `Difference` (both elements containing all the
registered names). -/
theorem difference_order_independent {K V : Type} [LinearOrderedField K]
    (fs1 fs2 : FeatureSpace K V) (aa bb : String → Option V)
    (hperm : fs1.features.Perm fs2.features)
    (hnd : (fs1.features.map (fun ff => ff.name)).Nodup)
    (ha : ∀ ff ∈ fs1.features, (aa ff.name).isSome = true)
    (hb : ∀ ff ∈ fs1.features, (bb ff.name).isSome = true) :
    fs1.Difference aa bb false = fs2.Difference aa bb false := by
  have ha2 : ∀ ff ∈ fs2.features, (aa ff.name).isSome = true :=
    fun ff hff => ha ff (hperm.mem_iff.mpr hff)
  have hb2 : ∀ ff ∈ fs2.features, (bb ff.name).isSome = true :=
    fun ff hff => hb ff (hperm.mem_iff.mpr hff)
  rw [Difference_cases fs1 aa bb false ha hb, Difference_cases fs2 aa bb false ha2 hb2]
  have hE : fs2.features.isEmpty = fs1.features.isEmpty := by
    cases h1 : fs1.features with
    | nil =>
      have h2 : fs2.features = [] := ((h1 ▸ hperm).symm).eq_nil
      rw [h2]
    | cons f t =>
      cases h2 : fs2.features with
      | nil =>
        exfalso
        have := (h2 ▸ hperm).eq_nil
        rw [h1] at this
        cases this
      | cons f' t' => rfl
  have hsw : (fs2.features.map (fun ff => ff.weight)).sum
      = (fs1.features.map (fun ff => ff.weight)).sum :=
    ((hperm.map (fun ff => ff.weight)).sum_eq).symm
  have hsn : (fs2.features.map (fun ff => normMetric ff aa bb * ff.weight)).sum
      = (fs1.features.map (fun ff => normMetric ff aa bb * ff.weight)).sum :=
    ((hperm.map (fun ff => normMetric ff aa bb * ff.weight)).sum_eq).symm
  rw [hE, hsw, hsn]
  simp

/-- Witness for C8: the spaces `fsAB` and `fsBA` register the same two
distinctly-named features in opposite orders and agree on the aggregate. -/
theorem difference_order_independent_witness :
    (fsAB.features.map (fun ff => ff.name)).Nodup ∧
    fsAB.Difference aaP bbP false = fsBA.Difference aaP bbP false :=
  ⟨by decide,
    difference_order_independent fsAB fsBA aaP bbP (List.Perm.swap fb fa [])
      (by decide) (by decide) (by decide)⟩

/-- C9: with duplicate feature names, the element returned by `Element()`
maps each name to the prototype of the *last* registration carrying it (the
`find?` over the reversed registry), shadowing earlier ones, while
`Difference` still iterates every registry entry in registration order: its
per-feature metrics list has one entry per registry entry, duplicates
included. -/
theorem element_shadowing_difference_iterates_all {K V : Type} [LinearOrderedField K]
    (fs : FeatureSpace K V) (n : String) (aa bb : String → Option V)
    (ha : ∀ ff ∈ fs.features, (aa ff.name).isSome = true)
    (hb : ∀ ff ∈ fs.features, (bb ff.name).isSome = true)
    (hw : (fs.features.map (fun ff => ff.weight)).sum ≠ 0) :
    fs.Element n
      = (fs.features.reverse.find? (fun ff => ff.name == n)).map (fun ff => ff.proto) ∧
    ∃ dd, fs.Difference aa bb true =
      DiffResult.ok dd (some (fs.features.map (fun ff => normMetric ff aa bb))) := by
  constructor
  · exact Element_lookup fs n
  · have h := Difference_ok fs aa bb true ha hb hw
    simp only [if_pos rfl] at h
    exact ⟨_, h⟩

/-- Witness for C9: in `fsDup` the name "x" is registered twice (prototypes 1
then 9).  `Element()` maps "x" to 9, the later prototype; `Difference` still
evaluates both entries, returning the two-element metrics list [3, 7]. -/
theorem element_shadowing_difference_iterates_all_witness :
    fsDup.Element "x" = some 9 ∧
    ∃ dd, fsDup.Difference aaD bbD true = DiffResult.ok dd (some [3, 7]) := by
  have h := element_shadowing_difference_iterates_all fsDup "x" aaD bbD
    (by decide) (by decide) (by norm_num [fsDup, fdup1, fdup2])
  constructor
  · rw [h.1]
    decide
  · obtain ⟨dd, hdd⟩ := h.2
    refine ⟨dd, hdd.trans ?_⟩
    norm_num [fsDup, fdup1, fdup2, normMetric, applyRemap, aaD, bbD]

theorem addFeatures_spec {α : Type} (s : PyClassState α) (i : Nat) (l₀ : List α)
    (l : List α) (h : s.instFeatures i = some l₀) :
    (addFeatures s i l).classFeatures = s.classFeatures ∧
    (addFeatures s i l).instFeatures i = some (l₀ ++ l) ∧
    ∀ j, j ≠ i → (addFeatures s i l).instFeatures j = s.instFeatures j := by
  induction l generalizing s l₀ with
  | nil => exact ⟨rfl, by simp [addFeatures, h], fun _ _ => rfl⟩
  | cons f t ih =>
    have hstep : addFeatureState s i f = PyClassState.mk s.classFeatures
        (fun j => if j = i then some (l₀ ++ [f]) else s.instFeatures j) := by
      unfold addFeatureState
      rw [h]
    have hinst : (addFeatureState s i f).instFeatures i = some (l₀ ++ [f]) := by
      rw [hstep]
      simp
    have hrec := ih (addFeatureState s i f) (l₀ ++ [f]) hinst
    have hfold : addFeatures s i (f :: t) = addFeatures (addFeatureState s i f) i t := rfl
    refine ⟨?_, ?_, ?_⟩
    · rw [hfold, hrec.1, hstep]
    · rw [hfold, hrec.2.1]
      simp
    · intro j hj
      rw [hfold, hrec.2.2 j hj, hstep]
      simp [hj]

/-- C10: a freshly constructed `FeatureSpace` starts with its own empty
registry (`__init__` binds a fresh instance-level `features = []` that
shadows the class-level default), and `AddFeature` appends only to that
instance's registry: after any sequence of registrations on instance `i`, its
registry is exactly the added list, while any other instance `j` — and the
class-level list itself — is unchanged, so `Element`/`Difference` on `j` are
unaffected. -/
theorem featureSpace_instance_isolation {K V : Type} [LinearOrderedField K]
    (s : PyClassState (Feature K V)) (i j : Nat) (l : List (Feature K V))
    (hij : j ≠ i) :
    (featureSpaceInit s i).getFeatures i = [] ∧
    (addFeatures (featureSpaceInit s i) i l).getFeatures i = l ∧
    (addFeatures (featureSpaceInit s i) i l).getFeatures j = s.getFeatures j ∧
    (addFeatures (featureSpaceInit s i) i l).classFeatures = s.classFeatures ∧
    (FeatureSpace.mk ((addFeatures (featureSpaceInit s i) i l).getFeatures j)).Element
      = (FeatureSpace.mk (s.getFeatures j)).Element ∧
    ∀ (aa bb : String → Option V) (g : Bool),
      (FeatureSpace.mk ((addFeatures (featureSpaceInit s i) i l).getFeatures j)).Difference
          aa bb g
        = (FeatureSpace.mk (s.getFeatures j)).Difference aa bb g := by
  have hinit : (featureSpaceInit s i).instFeatures i = some [] := by
    simp [featureSpaceInit]
  have hspec := addFeatures_spec (featureSpaceInit s i) i [] l hinit
  have hgetj : (addFeatures (featureSpaceInit s i) i l).getFeatures j = s.getFeatures j := by
    unfold PyClassState.getFeatures
    rw [hspec.2.2 j hij, hspec.1]
    unfold featureSpaceInit
    simp [hij]
  refine ⟨?_, ?_, hgetj, ?_, ?_, ?_⟩
  · unfold PyClassState.getFeatures
    rw [hinit]
    rfl
  · unfold PyClassState.getFeatures
    rw [hspec.2.1]
    rfl
  · exact hspec.1
  · rw [hgetj]
  · intro aa bb g
    rw [hgetj]

/-- Witness for C10: after building instance 0 and registering a feature on
it, instance 1 (which holds no instance attribute) still reads the untouched
class-level registry. -/
theorem featureSpace_instance_isolation_witness :
    (1 : Nat) ≠ 0 ∧
    (addFeatures (featureSpaceInit stInit 0) 0 [fa]).getFeatures 1 = stInit.getFeatures 1 ∧
    (addFeatures (featureSpaceInit stInit 0) 0 [fa]).getFeatures 0 = [fa] :=
  ⟨by decide,
    (featureSpace_instance_isolation stInit 0 1 [fa] (by decide)).2.2.1,
    (featureSpace_instance_isolation stInit 0 1 [fa] (by decide)).2.1⟩

end Miff
